import Mathlib

/-!
Verification of the header-normalization, record-mapping and metrics-aggregation
core of `src/pages/RelatorioCadastros.tsx`.

The TypeScript source is shallowly embedded below.  JavaScript strings are
`String` (lists of characters), JS numbers that the program uses as integers
are `Int`, nullable values are `Option`.  Host-environment conventions adopted
throughout (each noted where used):

* the local time zone is taken to be UTC, so `getFullYear`/`getMonth`/`getDate`
  read the UTC calendar fields of a timestamp;
* `Number(s)` is modelled on optionally-signed decimal-integer strings
  (surrounded by optional whitespace; the empty residue gives `0`, exactly as
  in JS); fractional / hexadecimal / exponent literals do not occur in the
  data handled by the claims and are mapped to `none` (JS `NaN`);
* `Date.parse` is modelled by the ECMA-262 normative ISO `YYYY[-MM[-DD]]`
  date-only grammar; implementation-defined extensions parse to `none`;
* `String#normalize("NFD")` followed by removal of U+0300–U+036F is modelled
  on the Latin-1 letters that occur in the header vocabulary.
-/

/-! ## Character and string helpers -/

/-- The whitespace characters removed by JS `String#trim` (ASCII subset). -/
def isWSChar (c : Char) : Bool :=
  c == ' ' || c == '\t' || c == '\n' || c == '\r' || c == '\x0b' || c == '\x0c'

/-- Strip leading and trailing whitespace from a character list. -/
def trimWS (l : List Char) : List Char :=
  ((l.dropWhile isWSChar).reverse.dropWhile isWSChar).reverse

/-- JS `String#trim`. -/
def jsTrim (s : String) : String := ⟨trimWS s.data⟩

/-- `startsWithList sub l` : `sub` occurs at the head of `l`. -/
def startsWithList : List Char → List Char → Bool
  | [], _ => true
  | _ :: _, [] => false
  | a :: as_, b :: bs => a == b && startsWithList as_ bs

/-- `containsSeq sub l` : `sub` occurs contiguously somewhere inside `l`. -/
def containsSeq (sub : List Char) : List Char → Bool
  | [] => startsWithList sub []
  | l@(_ :: rest) => startsWithList sub l || containsSeq sub rest

/-- JS `s.includes(sub)`. -/
def jsIncludes (s sub : String) : Bool := containsSeq sub.data s.data

/-- Split on every single occurrence of the character `c`
(the semantics of JS `s.split("/")`): empty pieces are kept. -/
def splitChar (c : Char) : List Char → List (List Char)
  | [] => [[]]
  | a :: rest =>
    match splitChar c rest with
    | [] => [[]]
    | g :: gs => if a = c then [] :: g :: gs else (a :: g) :: gs

/-- Prepend a character onto the first group of a group list. -/
def consHead (a : Char) : List (List Char) → List (List Char)
  | [] => [[a]]
  | g :: gs => (a :: g) :: gs

/-- Worker for `splitRuns`; the flag records whether the previous character was
a delimiter, so that a run of delimiters produces a single boundary, exactly
like splitting on the regex `[,;|\x2f]+`. -/
def splitRunsAux (p : Char → Bool) : Bool → List Char → List (List Char)
  | _, [] => [[]]
  | afterDelim, a :: rest =>
    if p a then
      if afterDelim then splitRunsAux p true rest
      else [] :: splitRunsAux p true rest
    else consHead a (splitRunsAux p false rest)

/-- Split on every maximal run of delimiter characters (JS `s.split(re+)`). -/
def splitRuns (p : Char → Bool) (l : List Char) : List (List Char) :=
  splitRunsAux p false l

/-- Value of a decimal digit string (most significant digit first). -/
def digitsVal (l : List Char) : Int :=
  l.foldl (fun acc c => acc * 10 + ((c.toNat : Int) - 48)) 0

/-- Core of JS `Number(s)` after whitespace trimming: the empty string is `0`;
an optionally-signed nonempty run of decimal digits is its value; anything
else is `NaN`, i.e. `none` (see the module comment for the modelled fragment). -/
def jsNumberCore : List Char → Option Int
  | [] => some 0
  | c :: rest =>
    if c = '-' then
      if rest ≠ [] ∧ rest.all (fun d => d.isDigit) then some (-(digitsVal rest)) else none
    else if c = '+' then
      if rest ≠ [] ∧ rest.all (fun d => d.isDigit) then some (digitsVal rest) else none
    else if (c :: rest).all (fun d => d.isDigit) then some (digitsVal (c :: rest)) else none

/-- JS `Number(s)` (`none` = `NaN`). -/
def jsNumber (s : String) : Option Int := jsNumberCore (trimWS s.data)

/-- JS `String#toLowerCase` on the Latin-1 range (ASCII letters and the
accented letters U+00C0–U+00DE, excluding the multiplication sign). -/
def jsToLower (c : Char) : Char :=
  let n := c.toNat
  if (65 ≤ n ∧ n ≤ 90) ∨ (192 ≤ n ∧ n ≤ 222 ∧ n ≠ 215) then Char.ofNat (n + 32) else c

/-- `normalize("NFD")` + removal of combining marks U+0300–U+036F, modelled on
the Latin-1 lowercase letters reachable from the header vocabulary. -/
def nfdStrip (c : Char) : Char :=
  if c ∈ ['á', 'à', 'â', 'ã', 'ä'] then 'a'
  else if c ∈ ['é', 'è', 'ê', 'ë'] then 'e'
  else if c ∈ ['í', 'ì', 'î', 'ï'] then 'i'
  else if c ∈ ['ó', 'ò', 'ô', 'õ', 'ö'] then 'o'
  else if c ∈ ['ú', 'ù', 'û', 'ü'] then 'u'
  else if c = 'ç' then 'c'
  else if c = 'ñ' then 'n'
  else c

/-! ## Calendar arithmetic (ECMA-262 `Date`, local zone = UTC) -/

/-- Days since 1970-01-01 of the civil date `y-m-d` (`m` is 1-based; `d` may
be out of range, it enters linearly exactly as in ECMA `MakeDay`).
Howard Hinnant's `days_from_civil` algorithm. -/
def daysFromCivil (y m d : Int) : Int :=
  let y' := if m ≤ 2 then y - 1 else y
  let era := Int.fdiv y' 400
  let yoe := y' - era * 400
  let doy := (153 * (if m > 2 then m - 3 else m + 9) + 2) / 5 + d - 1
  let doe := yoe * 365 + yoe / 4 - yoe / 100 + doy
  era * 146097 + doe - 719468

/-- Civil date `(year, month, day)` (month 1-based) of a number of days since
1970-01-01.  Howard Hinnant's `civil_from_days` algorithm. -/
def civilFromDays (z0 : Int) : Int × Int × Int :=
  let z := z0 + 719468
  let era := Int.fdiv z 146097
  let doe := z - era * 146097
  let yoe := (doe - doe / 1460 + doe / 36524 - doe / 146096) / 365
  let y := yoe + era * 400
  let doy := doe - (365 * yoe + yoe / 4 - yoe / 100)
  let mp := (5 * doy + 2) / 153
  let d := doy - (153 * mp + 2) / 5 + 1
  let m := if mp < 10 then mp + 3 else mp - 9
  (if m ≤ 2 then y + 1 else y, m, d)

/-- A (valid) JS `Date`: a millisecond timestamp. -/
structure JSDate where
  ms : Int
deriving DecidableEq

/-- `getFullYear` of a raw millisecond timestamp (local zone = UTC). -/
def msYear (ms : Int) : Int := (civilFromDays (Int.fdiv ms 86400000)).1

/-- JS `new Date(y, m, d)` — `m` is 0-based and may overflow into the year,
normalized as in ECMA `MakeDay`. -/
def jsNewDate (y m d : Int) : JSDate :=
  let ym := y + Int.fdiv m 12
  let mm := m - 12 * Int.fdiv m 12
  ⟨daysFromCivil ym (mm + 1) d * 86400000⟩

/-- JS `Date#getFullYear` (local zone = UTC). -/
def getFullYear (dt : JSDate) : Int := (civilFromDays (Int.fdiv dt.ms 86400000)).1

/-- JS `Date#getMonth` (0-based; local zone = UTC). -/
def getMonth (dt : JSDate) : Int := (civilFromDays (Int.fdiv dt.ms 86400000)).2.1 - 1

/-- JS `Date#getDate` (day of month; local zone = UTC). -/
def getDate (dt : JSDate) : Int := (civilFromDays (Int.fdiv dt.ms 86400000)).2.2

/-- JS `Date.parse`, modelled by the normative ECMA-262 ISO date-only forms
`YYYY`, `YYYY-MM`, `YYYY-MM-DD` (4-digit year, month 01–12, day 01–31);
every other string — including implementation-defined extensions — is `NaN`. -/
def jsDateParse (s : String) : Option Int :=
  match s.data with
  | [a, b, c, d] =>
    if [a, b, c, d].all (fun x => x.isDigit) then
      some (daysFromCivil (digitsVal [a, b, c, d]) 1 1 * 86400000)
    else none
  | [a, b, c, d, '-', e, f] =>
    if [a, b, c, d, e, f].all (fun x => x.isDigit) ∧
        1 ≤ digitsVal [e, f] ∧ digitsVal [e, f] ≤ 12 then
      some (daysFromCivil (digitsVal [a, b, c, d]) (digitsVal [e, f]) 1 * 86400000)
    else none
  | [a, b, c, d, '-', e, f, '-', g, h] =>
    if [a, b, c, d, e, f, g, h].all (fun x => x.isDigit) ∧
        1 ≤ digitsVal [e, f] ∧ digitsVal [e, f] ≤ 12 ∧
        1 ≤ digitsVal [g, h] ∧ digitsVal [g, h] ≤ 31 then
      some (daysFromCivil (digitsVal [a, b, c, d]) (digitsVal [e, f]) (digitsVal [g, h]) *
        86400000)
    else none
  | _ => none

/-! ## Cell values -/

/-- A raw spreadsheet cell as produced by `sheet_to_json` (`defval: ""`):
a string, a number, or a `Date` object. -/
inductive CellValue where
  | str (s : String)
  | num (n : Int)
  | date (d : JSDate)
deriving DecidableEq

/-- JS falsiness of a cell value (`""` and `0`; `Date` objects are truthy). -/
def jsFalsy (v : CellValue) : Bool :=
  match v with
  | .str s => s == ""
  | .num n => n == 0
  | .date _ => false

/-- JS `String(v)`.  The textual rendering of a `Date` object is
host-dependent; no claim depends on its exact form, only on its existence. -/
def cellToString (v : CellValue) : String :=
  match v with
  | .str s => s
  | .num n => toString n
  | .date d => "Date " ++ toString d.ms

/-! ## `parseDate` -/

/-- The ISO branch of `parseDate` (lines 110–115 of the source): `Date.parse`
followed by the `> 1900` year check; on failure control falls through to the
serial-number branch. -/
def isoAttempt (s : String) : Option Int :=
  match jsDateParse s with
  | some ms => if msYear ms > 1900 then some ms else none
  | none => none

/-- `parseDate` on an already stringified-and-trimmed nonempty value
(lines 98–124 of the source). -/
def parseDateStr (s : String) : Option JSDate :=
  if s = "" then none
  else
    match splitChar '/' s.data with
    | [p0, p1, p2] =>
      match jsNumber ⟨p0⟩, jsNumber ⟨p1⟩, jsNumber ⟨p2⟩ with
      | some d, some m, some y =>
        if y > 1900 then some (jsNewDate y (m - 1) d) else none
      | _, _, _ => none
    | _ =>
      match isoAttempt s with
      | some ms => some ⟨ms⟩
      | none =>
        match jsNumber s with
        | some n =>
          if n > 0 then
            if msYear ((n - 25569) * 86400000) > 1900 then
              some ⟨(n - 25569) * 86400000⟩
            else none
          else none
        | none => none

/-- `parseDate` (lines 91–125).  `!value && value !== 0` rejects only the
falsy non-zero values (the empty string); a `Date` instance passes through;
otherwise the value is stringified, trimmed and parsed. -/
def parseDate (value : CellValue) : Option JSDate :=
  match value with
  | .date dt => some dt
  | .str s => if s = "" then none else parseDateStr (jsTrim s)
  | .num n => parseDateStr (jsTrim (cellToString (.num n)))

/-! ## `splitPendencias` and the overdue-days coercion -/

/-- The delimiter class `[,;|\x2f]` of `splitPendencias`. -/
def isDelimChar (c : Char) : Bool := c == ',' || c == ';' || c == '|' || c == '/'

/-- `splitPendencias` (lines 127–134): falsy input gives `[]`; otherwise
line breaks become spaces, the string is split on runs of
comma/semicolon/pipe/slash, pieces are trimmed and empty pieces dropped. -/
def splitPendencias (raw : CellValue) : List String :=
  if jsFalsy raw then []
  else
    let s := (cellToString raw).data.map (fun c => if c = '\r' ∨ c = '\n' then ' ' else c)
    (((splitRuns isDelimChar s).map (fun piece => trimWS piece)).filter
        (fun piece => piece ≠ [])).map (fun piece => (⟨piece⟩ : String))

/-- The overdue-days coercion (lines 171–174):
`Number(String(v).replace(/\D+/g, ""))`, then `isNaN(n) ? null : n`. -/
def coerceDiasAtrasado (v : CellValue) : Option Int :=
  match jsNumber ⟨(cellToString v).data.filter (fun c => c.isDigit)⟩ with
  | some n => some n
  | none => none

/-! ## Header normalization and resolution -/

/-- The canonical field identifiers (the keys of `Cliente` that
`headerMap` targets). -/
inductive FieldId where
  | nome | cpf | estado | cidade | responsavelFidelizacao | acoesInformadas
  | situacao | pendencias | dataProc | dataEnvioProc | dataLimiteCadastro
  | dataLimiteAnalise | dataLimitePeticao | dataLimiteProtocolo | prazo20dias
  | diasAtrasado | responsavelCadastramento
deriving DecidableEq

/-- `headerMap` (lines 54–78), as an ordered association list.  JS object
literals with string keys iterate in insertion order, so this list order is
exactly the `Object.keys` order the fallback scan uses; the keys are pairwise
distinct, so `headerMap[k]` coincides with a first-match lookup. -/
def headerMap : List (String × FieldId) :=
  [("cliente novo", .nome),
   ("nome", .nome),
   ("cpf", .cpf),
   ("estado", .estado),
   ("cidade", .cidade),
   ("responsavel da fidelizacao", .responsavelFidelizacao),
   ("responsavel pela fidelizacao", .responsavelFidelizacao),
   ("responsavel fidelizacao", .responsavelFidelizacao),
   ("acoes informadas", .acoesInformadas),
   ("situacao", .situacao),
   ("pendencias", .pendencias),
   ("data da procuracao", .dataProc),
   ("data do envio da procuracao", .dataEnvioProc),
   ("data limite para cadastro", .dataLimiteCadastro),
   ("data limite para analise", .dataLimiteAnalise),
   ("data limite para peticao inicial", .dataLimitePeticao),
   ("data limite para protocolo", .dataLimiteProtocolo),
   ("prazo de 20 dias", .prazo20dias),
   ("quantos dias esta atrasado", .diasAtrasado),
   ("quantos dias está atrasado", .diasAtrasado),
   ("responsavel pelo cadastramento", .responsavelCadastramento),
   ("responsavel pelo cadastro", .responsavelCadastramento),
   ("responsavel", .responsavelCadastramento)]

/-- `normalizeHeader` (lines 44–52): trim, lowercase, strip diacritics. -/
def normalizeHeader (h : String) : String :=
  if h = "" then ""
  else ⟨(trimWS h.data).map (fun c => nfdStrip (jsToLower c))⟩

/-- `mapHeaderToKey` (lines 80–89): exact lookup first, then the first key in
table order that is a substring of the normalized header. -/
def mapHeaderToKey (normalized : String) : Option FieldId :=
  match headerMap.find? (fun kv => kv.1 == normalized) with
  | some kv => some kv.2
  | none => (headerMap.find? (fun kv => jsIncludes normalized kv.1)).map (fun kv => kv.2)

/-! ## The canonical record and the row mapper -/

/-- A raw spreadsheet row: `Object.entries` order of header/cell pairs. -/
def RawRow : Type := List (String × CellValue)

/-- `Cliente` (lines 22–41).  `none` stands for an absent (or, for the date
fields and `diasAtrasado`, explicitly `null`) field — the source never
distinguishes the two (it tests them with `== null` / `instanceof Date` /
`||`), except for `pendencias`, which is only ever assigned a (possibly
empty) array, so `some` = assigned, `none` = absent. -/
structure Cliente where
  nome : Option String := none
  cpf : Option String := none
  estado : Option String := none
  cidade : Option String := none
  responsavelFidelizacao : Option String := none
  acoesInformadas : Option String := none
  situacao : Option String := none
  pendencias : Option (List String) := none
  dataProc : Option JSDate := none
  dataEnvioProc : Option JSDate := none
  dataLimiteCadastro : Option JSDate := none
  dataLimiteAnalise : Option JSDate := none
  dataLimitePeticao : Option JSDate := none
  dataLimiteProtocolo : Option JSDate := none
  prazo20dias : Option String := none
  diasAtrasado : Option Int := none
  responsavelCadastramento : Option String := none
  raw : List (String × CellValue) := []

/-- The `switch (key)` of the row mapper (lines 159–177): date fields via
`parseDate`, `pendencias` via `splitPendencias`, `diasAtrasado` via the
digit-stripping coercion, every other field stringified and trimmed. -/
def applyField (out : Cliente) (k : FieldId) (v : CellValue) : Cliente :=
  match k with
  | .nome => { out with nome := some (jsTrim (cellToString v)) }
  | .cpf => { out with cpf := some (jsTrim (cellToString v)) }
  | .estado => { out with estado := some (jsTrim (cellToString v)) }
  | .cidade => { out with cidade := some (jsTrim (cellToString v)) }
  | .responsavelFidelizacao =>
      { out with responsavelFidelizacao := some (jsTrim (cellToString v)) }
  | .acoesInformadas => { out with acoesInformadas := some (jsTrim (cellToString v)) }
  | .situacao => { out with situacao := some (jsTrim (cellToString v)) }
  | .pendencias => { out with pendencias := some (splitPendencias v) }
  | .dataProc => { out with dataProc := parseDate v }
  | .dataEnvioProc => { out with dataEnvioProc := parseDate v }
  | .dataLimiteCadastro => { out with dataLimiteCadastro := parseDate v }
  | .dataLimiteAnalise => { out with dataLimiteAnalise := parseDate v }
  | .dataLimitePeticao => { out with dataLimitePeticao := parseDate v }
  | .dataLimiteProtocolo => { out with dataLimiteProtocolo := parseDate v }
  | .prazo20dias => { out with prazo20dias := some (jsTrim (cellToString v)) }
  | .diasAtrasado => { out with diasAtrasado := coerceDiasAtrasado v }
  | .responsavelCadastramento =>
      { out with responsavelCadastramento := some (jsTrim (cellToString v)) }

/-- One `Object.entries(row).forEach` step (lines 155–178): unresolvable
headers are skipped. -/
def mapStep (out : Cliente) (kv : String × CellValue) : Cliente :=
  match mapHeaderToKey (normalizeHeader kv.1) with
  | none => out
  | some k => applyField out k kv.2

/-- The per-column part of the row mapper (lines 154–178), before the
overdue-days fallback. -/
def mapRowFields (row : List (String × CellValue)) : Cliente :=
  row.foldl mapStep { raw := row }

/-- The overdue-days fallback (lines 179–183): when `diasAtrasado` is still
null/absent and a protocol-deadline `Date` is present, assign
`floor((now - deadline) / 1 day)` clamped at zero. -/
def applyFallback (now : Int) (out : Cliente) : Cliente :=
  match out.diasAtrasado, out.dataLimiteProtocolo with
  | none, some dt =>
    let diff := Int.fdiv (now - dt.ms) 86400000
    { out with diasAtrasado := some (if diff > 0 then diff else 0) }
  | _, _ => out

/-- The full row mapper (`raw.map` callback, lines 153–185).  `Date.now()` is
passed in as `now`. -/
def mapRow (now : Int) (row : List (String × CellValue)) : Cliente :=
  applyFallback now (mapRowFields row)

/-! ## Metrics aggregation -/

/-- One step of the frequency-counting reduce: JS objects keep string keys in
insertion order, so incrementing an existing key preserves its position and a
new key is appended. -/
def bump (k : String) : List (String × Nat) → List (String × Nat)
  | [] => [(k, 1)]
  | (k', c) :: rest => if k' = k then (k', c + 1) :: rest else (k', c) :: bump k rest

/-- `pendenciasFlat` (line 205): all records' pendency lists flattened,
an absent list contributing nothing (`c.pendencias || []`). -/
def pendenciasFlat (cs : List Cliente) : List String :=
  cs.flatMap (fun c => c.pendencias.getD [])

/-- The bucket label of one flattened pendency entry (line 207,
`p || "Sem especificar"`). -/
def pendKey (p : String) : String := if p = "" then "Sem especificar" else p

/-- `pendenciasCount` (lines 206–210) as an ordered label/count table
(`Object.entries` order = first-seen order). -/
def pendenciasCount (cs : List Cliente) : List (String × Nat) :=
  (pendenciasFlat cs).foldl (fun acc p => bump (pendKey p) acc) []

/-- Total of the counts of a frequency table. -/
def sumCounts (l : List (String × Nat)) : Nat := (l.map (fun e => e.2)).sum

/-- JS `a || b` on an optional string (empty string is falsy). -/
def jsOrStr (v : Option String) (d : String) : String :=
  match v with
  | some s => if s = "" then d else s
  | none => d

/-- The city grouping key (line 217): `(c.cidade || "Não informado").trim()`. -/
def cityKey (c : Cliente) : String := jsTrim (jsOrStr c.cidade "Não informado")

/-- `cityCount` (lines 216–220) as an ordered label/count table. -/
def cityCount (cs : List Cliente) : List (String × Nat) :=
  cs.foldl (fun acc c => bump (cityKey c) acc) []

/-- City entries tagged with their first-seen position.  JS `Array#sort` is
stable (ES2019), so sorting them by descending count is the same as sorting
by the total order (count descending, first-seen position ascending), which
is what we embed. -/
def cityEntries (cs : List Cliente) : List (String × Nat × Nat) :=
  (cityCount cs).enum.map (fun p => (p.2.1, p.2.2, p.1))

/-- The total order realizing the stable descending-count sort:
larger count first, ties by first-seen position. -/
def cityOrd (a b : String × Nat × Nat) : Prop :=
  b.2.1 < a.2.1 ∨ (a.2.1 = b.2.1 ∧ a.2.2 ≤ b.2.2)

instance : DecidableRel cityOrd := fun a b => by
  unfold cityOrd; infer_instance

instance : IsTotal (String × Nat × Nat) cityOrd := by
  constructor
  intro a b
  rcases Nat.lt_trichotomy a.2.1 b.2.1 with h | h | h
  · exact Or.inr (Or.inl h)
  · rcases Nat.le_total a.2.2 b.2.2 with h2 | h2
    · exact Or.inl (Or.inr ⟨h, h2⟩)
    · exact Or.inr (Or.inr ⟨h.symm, h2⟩)
  · exact Or.inl (Or.inl h)

instance : IsTrans (String × Nat × Nat) cityOrd := by
  constructor
  rintro a b c (hab | ⟨hab, hab2⟩) (hbc | ⟨hbc, hbc2⟩)
  · exact Or.inl (lt_trans hbc hab)
  · exact Or.inl (hbc ▸ hab)
  · exact Or.inl (hab ▸ hbc)
  · exact Or.inr ⟨hab.trans hbc, le_trans hab2 hbc2⟩

/-- The sorted (still index-tagged) city entries. -/
def topCitiesSorted (cs : List Cliente) : List (String × Nat × Nat) :=
  List.insertionSort cityOrd (cityEntries cs)

/-- `topCities` (lines 221–224): sort descending by count (stable), truncate
to the first 10, keep label and count. -/
def topCities (cs : List Cliente) : List (String × Nat) :=
  ((topCitiesSorted cs).take 10).map (fun t => (t.1, t.2.1))

/-! ## Helper lemmas on the string primitives -/

theorem dropWhile_eq_self_of {p : Char → Bool} {l : List Char}
    (h : ∀ c ∈ l, p c = false) : l.dropWhile p = l := by
  cases l with
  | nil => rfl
  | cons a t =>
    exact List.dropWhile_cons_of_neg (by simp [h a (List.mem_cons_self a t)])

theorem trimWS_eq_self {l : List Char} (h : ∀ c ∈ l, isWSChar c = false) :
    trimWS l = l := by
  unfold trimWS
  rw [dropWhile_eq_self_of h, dropWhile_eq_self_of, List.reverse_reverse]
  intro c hc
  exact h c (List.mem_reverse.mp hc)

theorem dropWhile_dropWhile (p : Char → Bool) (l : List Char) :
    (l.dropWhile p).dropWhile p = l.dropWhile p := by
  induction l with
  | nil => rfl
  | cons a t ih =>
    by_cases h : p a = true
    · rw [List.dropWhile_cons_of_pos h]
      exact ih
    · rw [List.dropWhile_cons_of_neg h, List.dropWhile_cons_of_neg h]

theorem head_dropWhile_false {p : Char → Bool} {l : List Char} {a : Char}
    {t : List Char} (h : l.dropWhile p = a :: t) : p a = false := by
  by_cases hp : p a = true
  · exfalso
    induction l with
    | nil => exact absurd h (by simp)
    | cons b u ih =>
      by_cases hb : p b = true
      · rw [List.dropWhile_cons_of_pos hb] at h
        exact ih h
      · rw [List.dropWhile_cons_of_neg hb] at h
        cases h
        exact hb hp
  · exact Bool.eq_false_iff.mpr hp

theorem dropWhile_of_dropWhile_eq_self {p : Char → Bool} {x : List Char}
    (hx : x.dropWhile p = x) :
    (x.reverse.dropWhile p).reverse.dropWhile p = (x.reverse.dropWhile p).reverse := by
  cases hB : (x.reverse.dropWhile p).reverse with
  | nil => rfl
  | cons a u =>
    have hsuf : List.IsSuffix (x.reverse.dropWhile p) x.reverse := List.dropWhile_suffix p
    obtain ⟨t, ht⟩ := hsuf
    have hx' : x = (x.reverse.dropWhile p).reverse ++ t.reverse := by
      have := congrArg List.reverse ht
      simpa [List.reverse_append] using this.symm
    rw [hB] at hx'
    have hxcons : x.dropWhile p = a :: (u ++ t.reverse) := by rw [hx]; exact hx'
    have hpa : p a = false := head_dropWhile_false hxcons
    rw [List.dropWhile_cons_of_neg (by simp [hpa])]

theorem trimWS_idem (l : List Char) : trimWS (trimWS l) = trimWS l := by
  unfold trimWS
  have h1 : ((l.dropWhile isWSChar).reverse.dropWhile isWSChar).reverse.dropWhile isWSChar =
      ((l.dropWhile isWSChar).reverse.dropWhile isWSChar).reverse :=
    dropWhile_of_dropWhile_eq_self (dropWhile_dropWhile isWSChar l)
  rw [h1, List.reverse_reverse, dropWhile_dropWhile]

theorem splitChar_cons (c a : Char) (rest : List Char) :
    splitChar c (a :: rest) =
      match splitChar c rest with
      | [] => [[]]
      | g :: gs => if a = c then [] :: g :: gs else (a :: g) :: gs := rfl

theorem splitChar_ne_nil (c : Char) (l : List Char) : splitChar c l ≠ [] := by
  induction l with
  | nil => simp [splitChar]
  | cons a t ih =>
    unfold splitChar
    cases h : splitChar c t with
    | nil => simp
    | cons g gs => by_cases hac : a = c <;> simp [hac]

theorem splitChar_of_not_mem {c : Char} {l : List Char} (h : c ∉ l) :
    splitChar c l = [l] := by
  induction l with
  | nil => rfl
  | cons a t ih =>
    have hac : a ≠ c := fun e => h (e ▸ List.mem_cons_self a t)
    have ht : c ∉ t := fun m => h (List.mem_cons_of_mem a m)
    unfold splitChar
    rw [ih ht]
    simp [hac]

theorem splitChar_append {c : Char} {xs : List Char} (ys : List Char) (h : c ∉ xs) :
    splitChar c (xs ++ c :: ys) = xs :: splitChar c ys := by
  induction xs with
  | nil =>
    show splitChar c (c :: ys) = [] :: splitChar c ys
    rw [splitChar_cons]
    cases hy : splitChar c ys with
    | nil => exact absurd hy (splitChar_ne_nil c ys)
    | cons g gs => simp
  | cons a t ih =>
    have hac : a ≠ c := fun e => h (e ▸ List.mem_cons_self a t)
    have ht : c ∉ t := fun m => h (List.mem_cons_of_mem a m)
    show splitChar c (a :: (t ++ c :: ys)) = (a :: t) :: splitChar c ys
    rw [splitChar_cons, ih ht]
    simp [hac]

theorem digit_toNat_ge {c : Char} (h : c.isDigit = true) : 48 ≤ c.toNat := by
  simp only [Char.isDigit, decide_eq_true_eq, Bool.and_eq_true, decide_eq_true_iff] at h
  exact h.1

theorem digit_not_ws {c : Char} (h : c.isDigit = true) : isWSChar c = false := by
  by_contra hws
  have hws' : isWSChar c = true := by
    revert hws
    cases isWSChar c <;> simp
  unfold isWSChar at hws'
  simp only [Bool.or_eq_true, beq_iff_eq] at hws'
  rcases hws' with ((((rfl | rfl) | rfl) | rfl) | rfl) | rfl <;> exact absurd h (by decide)

theorem digit_ne_slash {c : Char} (h : c.isDigit = true) : c ≠ '/' := by
  rintro rfl
  exact absurd h (by decide)

theorem jsNumberCore_digits {l : List Char} (hne : l ≠ [])
    (hd : ∀ d ∈ l, d.isDigit = true) : jsNumberCore l = some (digitsVal l) := by
  cases l with
  | nil => exact absurd rfl hne
  | cons c rest =>
    have hc := hd c (List.mem_cons_self c rest)
    have h1 : c ≠ '-' := by rintro rfl; exact absurd hc (by decide)
    have h2 : c ≠ '+' := by rintro rfl; exact absurd hc (by decide)
    show (if c = '-' then
        if rest ≠ [] ∧ rest.all (fun d => d.isDigit) then some (-(digitsVal rest)) else none
      else if c = '+' then
        if rest ≠ [] ∧ rest.all (fun d => d.isDigit) then some (digitsVal rest) else none
      else if (c :: rest).all (fun d => d.isDigit) then some (digitsVal (c :: rest))
      else none) = some (digitsVal (c :: rest))
    rw [if_neg h1, if_neg h2, if_pos]
    exact List.all_eq_true.mpr (fun d m => hd d m)

theorem digitsVal_foldl_nonneg (l : List Char) (hd : ∀ d ∈ l, d.isDigit = true) :
    ∀ acc : Int, 0 ≤ acc →
      0 ≤ l.foldl (fun acc c => acc * 10 + ((c.toNat : Int) - 48)) acc := by
  induction l with
  | nil => intro acc h; exact h
  | cons c t ih =>
    intro acc hacc
    have hc := hd c (List.mem_cons_self c t)
    have h48 : 48 ≤ c.toNat := digit_toNat_ge hc
    have : (0 : Int) ≤ acc * 10 + ((c.toNat : Int) - 48) := by
      have : (48 : Int) ≤ (c.toNat : Int) := by exact_mod_cast h48
      nlinarith
    exact ih (fun d m => hd d (List.mem_cons_of_mem c m)) _ this

theorem digitsVal_nonneg {l : List Char} (hd : ∀ d ∈ l, d.isDigit = true) :
    0 ≤ digitsVal l :=
  digitsVal_foldl_nonneg l hd 0 le_rfl

theorem jsNumber_of_digits {l : List Char} (hd : ∀ d ∈ l, d.isDigit = true) :
    jsNumber ⟨l⟩ = some (digitsVal l) ∨ (l = [] ∧ jsNumber ⟨l⟩ = some 0) := by
  cases hl : l with
  | nil => exact Or.inr ⟨rfl, rfl⟩
  | cons c t =>
    left
    rw [← hl]
    show jsNumberCore (trimWS l) = some (digitsVal l)
    rw [trimWS_eq_self (fun d m => digit_not_ws (hd d m))]
    exact jsNumberCore_digits (by rw [hl]; simp) hd

/-! ## Frequency-table lemmas -/

theorem sumCounts_bump (k : String) (acc : List (String × Nat)) :
    sumCounts (bump k acc) = sumCounts acc + 1 := by
  induction acc with
  | nil => rfl
  | cons e rest ih =>
    obtain ⟨k', c⟩ := e
    by_cases h : k' = k
    · simp only [bump, if_pos h, sumCounts, List.map_cons, List.sum_cons]
      omega
    · simp only [bump, if_neg h]
      simp [sumCounts] at ih ⊢
      omega

theorem sumCounts_foldl_bump (l : List String) (acc : List (String × Nat)) :
    sumCounts (l.foldl (fun a p => bump (pendKey p) a) acc) = sumCounts acc + l.length := by
  induction l generalizing acc with
  | nil => simp
  | cons p t ih =>
    rw [List.foldl_cons, ih, sumCounts_bump, List.length_cons]
    omega

/-- C1 counterexample: the collection `[c₀]`, where `c₀` has an (assigned)
empty pendency list, contains one record with no pendency label, yet the
produced frequency table is empty — in particular it has no
"Sem especificar" entry of count 1, contradicting the claim that such an
entry counts the empty-pendency records. -/
theorem pendencias_empty_record_no_bucket :
    ({ pendencias := some [] } : Cliente).pendencias = some []
    ∧ pendenciasCount [{ pendencias := some [] }] = []
    ∧ ("Sem especificar", 1) ∉ pendenciasCount [{ pendencias := some [] }] := by
  refine ⟨rfl, rfl, ?_⟩
  intro h
  cases h

/-- C1 (amended): only individual flattened pendency entries feed the
frequency table (an empty-string entry falling into the "Sem especificar"
bucket); a record whose pendency list is empty or absent contributes no
entries at all; and the bucket counts total exactly the number of flattened
pendency entries. -/
theorem pendenciasCount_total (cs : List Cliente) :
    sumCounts (pendenciasCount cs) = (pendenciasFlat cs).length
    ∧ pendKey "" = "Sem especificar"
    ∧ ∀ c : Cliente, c.pendencias = none ∨ c.pendencias = some [] →
        pendenciasCount (cs ++ [c]) = pendenciasCount cs := by
  refine ⟨?_, rfl, ?_⟩
  · unfold pendenciasCount
    simpa [sumCounts] using sumCounts_foldl_bump (pendenciasFlat cs) []
  · intro c hc
    unfold pendenciasCount pendenciasFlat
    have hflat : (cs ++ [c]).flatMap (fun c => c.pendencias.getD []) =
        cs.flatMap (fun c => c.pendencias.getD []) := by
      rcases hc with h | h <;> simp [h]
    rw [hflat]

/-- C1 witness: appending a record with an (assigned) empty pendency list to
a one-record collection leaves the pendency table unchanged. -/
theorem pendenciasCount_total_witness :
    pendenciasCount ([({ pendencias := some ["RG"] } : Cliente)] ++ [{ pendencias := some [] }]) =
      pendenciasCount [({ pendencias := some ["RG"] } : Cliente)] :=
  (pendenciasCount_total [{ pendencias := some ["RG"] }]).2.2 { pendencias := some [] }
    (Or.inr rfl)

theorem coerceDiasAtrasado_some_nonneg (v : CellValue) :
    ∃ n : Int, coerceDiasAtrasado v = some n ∧ 0 ≤ n := by
  have hdig : ∀ d ∈ (cellToString v).data.filter (fun c => c.isDigit), d.isDigit = true :=
    fun d hd => (List.mem_filter.mp hd).2
  unfold coerceDiasAtrasado
  rcases jsNumber_of_digits hdig with h | ⟨_, h⟩
  · rw [h]
    exact ⟨_, rfl, digitsVal_nonneg hdig⟩
  · rw [h]
    exact ⟨0, rfl, le_rfl⟩

/-- C2: the overdue-days coercion applied to a value with no digits at all —
the cell text "abc" — produces the number 0, not null: after stripping
non-digits the residue is the empty string and JS `Number("")` is `0`, so the
`isNaN` branch that the spec describes never fires (second conjunct), the
record keeps `diasAtrasado = 0`, and the fallback computation is blocked. -/
theorem coerceDiasAtrasado_no_digits_yields_zero :
    coerceDiasAtrasado (CellValue.str "abc") = some 0
    ∧ ∀ v : CellValue, coerceDiasAtrasado v ≠ none := by
  constructor
  · decide
  · intro v hn
    obtain ⟨n, hv, _⟩ := coerceDiasAtrasado_some_nonneg v
    rw [hv] at hn
    exact Option.some_ne_none n hn

/-- C7: `splitPendencias` on `"Documento; RG, CPF/CNH"` yields
`["Documento", "RG", "CPF", "CNH"]`; absent (falsy) input yields the empty
list; and every produced piece is nonempty and already trimmed. -/
theorem splitPendencias_spec :
    splitPendencias (CellValue.str "Documento; RG, CPF/CNH") =
      ["Documento", "RG", "CPF", "CNH"]
    ∧ (∀ v : CellValue, jsFalsy v = true → splitPendencias v = [])
    ∧ (∀ v : CellValue, ∀ p ∈ splitPendencias v, p ≠ "" ∧ jsTrim p = p) := by
  refine ⟨by decide, ?_, ?_⟩
  · intro v hv
    unfold splitPendencias
    rw [if_pos hv]
  · intro v p hp
    unfold splitPendencias at hp
    by_cases hb : jsFalsy v = true
    · rw [if_pos hb] at hp
      cases hp
    · rw [if_neg hb] at hp
      obtain ⟨piece, hpiece, rfl⟩ := List.mem_map.mp hp
      have h2 := List.mem_filter.mp hpiece
      have hpne : piece ≠ [] := by simpa using h2.2
      constructor
      · intro he
        exact hpne (by simpa using congrArg String.data he)
      · obtain ⟨q, _, rfl⟩ := List.mem_map.mp h2.1
        show jsTrim ⟨trimWS q⟩ = ⟨trimWS q⟩
        unfold jsTrim
        exact congrArg String.mk (trimWS_idem q)

/-- C7 witness: the falsy empty-cell input produces the empty pendency list. -/
theorem splitPendencias_spec_witness :
    splitPendencias (CellValue.str "") = [] :=
  splitPendencias_spec.2.1 (CellValue.str "") (by decide)

/-- C9: the top-cities table has at most 10 entries; its counts are
non-increasing; the sorted entry list (tagged with first-seen positions) is
sorted by the total order "larger count first, ties by earlier first-seen
position", which is exactly stable descending sorting; and a blank or absent
city is grouped under the label "Não informado". -/
theorem topCities_spec (cs : List Cliente) :
    (topCities cs).length ≤ 10
    ∧ List.Pairwise (fun a b : String × Nat => b.2 ≤ a.2) (topCities cs)
    ∧ List.Pairwise cityOrd (topCitiesSorted cs)
    ∧ (∀ c : Cliente, c.cidade = none ∨ c.cidade = some "" →
        cityKey c = "Não informado") := by
  refine ⟨?_, ?_, List.sorted_insertionSort cityOrd _, ?_⟩
  · unfold topCities
    rw [List.length_map]
    exact List.length_take_le 10 _
  · unfold topCities
    have hs : List.Pairwise cityOrd (topCitiesSorted cs) :=
      List.sorted_insertionSort cityOrd _
    have ht : List.Pairwise cityOrd ((topCitiesSorted cs).take 10) :=
      hs.sublist (List.take_sublist _ _)
    refine ht.map _ (fun a b hab => ?_)
    rcases hab with h | ⟨h, _⟩
    · exact le_of_lt h
    · exact le_of_eq h.symm
  · intro c hc
    rcases hc with h | h
    · unfold cityKey jsOrStr
      rw [h]
      decide
    · unfold cityKey jsOrStr
      rw [h]
      decide

/-- C9 witness: an absent city is labelled "Não informado", and a concrete
four-record collection produces a table within the 10-entry cap. -/
theorem topCities_spec_witness :
    cityKey { cidade := none } = "Não informado"
    ∧ (topCities [{ cidade := some "Recife" }, { cidade := none }]).length ≤ 10 :=
  ⟨(topCities_spec []).2.2.2 { cidade := none } (Or.inl rfl),
   (topCities_spec [{ cidade := some "Recife" }, { cidade := none }]).1⟩

/-! ## Row-mapper lemmas -/

theorem applyField_pendencias_of_ne {out : Cliente} {k : FieldId} {v : CellValue}
    (h : k ≠ FieldId.pendencias) :
    (applyField out k v).pendencias = out.pendencias := by
  cases k <;> first | rfl | exact absurd rfl h

theorem applyField_dias_of_ne {out : Cliente} {k : FieldId} {v : CellValue}
    (h : k ≠ FieldId.diasAtrasado) :
    (applyField out k v).diasAtrasado = out.diasAtrasado := by
  cases k <;> first | rfl | exact absurd rfl h

theorem mapStep_pendencias_eq (acc : Cliente) (kv : String × CellValue) :
    (mapStep acc kv).pendencias =
      if mapHeaderToKey (normalizeHeader kv.1) = some FieldId.pendencias
      then some (splitPendencias kv.2) else acc.pendencias := by
  unfold mapStep
  cases hk : mapHeaderToKey (normalizeHeader kv.1) with
  | none => simp
  | some k =>
    by_cases hp : k = FieldId.pendencias
    · subst hp
      rw [if_pos rfl]
      rfl
    · rw [if_neg (by simp [hp]), applyField_pendencias_of_ne hp]

theorem foldl_mapStep_pendencias (row : List (String × CellValue)) :
    ∀ acc : Cliente, (row.foldl mapStep acc).pendencias = none ↔
      acc.pendencias = none ∧
        ∀ kv ∈ row, mapHeaderToKey (normalizeHeader kv.1) ≠ some FieldId.pendencias := by
  induction row with
  | nil => simp
  | cons kv rest ih =>
    intro acc
    rw [List.foldl_cons, ih]
    by_cases hk : mapHeaderToKey (normalizeHeader kv.1) = some FieldId.pendencias
    · constructor
      · rintro ⟨h1, _⟩
        rw [mapStep_pendencias_eq, if_pos hk] at h1
        cases h1
      · rintro ⟨_, h2⟩
        exact absurd hk (h2 kv (List.mem_cons_self kv rest))
    · rw [mapStep_pendencias_eq, if_neg hk]
      constructor
      · rintro ⟨h1, h2⟩
        refine ⟨h1, fun kv' hkv' => ?_⟩
        rcases List.mem_cons.mp hkv' with rfl | hmem
        · exact hk
        · exact h2 kv' hmem
      · rintro ⟨h1, h2⟩
        exact ⟨h1, fun kv' hkv' => h2 kv' (List.mem_cons_of_mem kv hkv')⟩

theorem applyFallback_pendencias (now : Int) (out : Cliente) :
    (applyFallback now out).pendencias = out.pendencias := by
  unfold applyFallback
  cases out.diasAtrasado <;> cases out.dataLimiteProtocolo <;> rfl

/-- C3 counterexample: a row in which no column resolves to the pendencias
field maps to a record whose `pendencias` field is absent (not an empty
list), contradicting the claim that the field is a list for every row. -/
theorem mapRow_pendencias_absent_example :
    (mapRow 0 [("Cidade", CellValue.str "Recife")]).pendencias = none := by decide

/-- C3 (amended): the mapped record's `pendencias` field is absent exactly
when no column of the row resolves to the pendencias field; whenever some
column does resolve to it, the field holds a (possibly empty) list — the
source type declares the field optional and every consumer reads it as
`c.pendencias || []`. -/
theorem mapRow_pendencias_none_iff (now : Int) (row : List (String × CellValue)) :
    (mapRow now row).pendencias = none ↔
      ∀ kv ∈ row, mapHeaderToKey (normalizeHeader kv.1) ≠ some FieldId.pendencias := by
  unfold mapRow mapRowFields
  rw [applyFallback_pendencias, foldl_mapStep_pendencias]
  simp

/-- C3 witness: a row whose only column is a name column yields a record with
absent `pendencias`. -/
theorem mapRow_pendencias_none_iff_witness :
    (mapRow 0 [("Nome", CellValue.str "Ana")]).pendencias = none :=
  (mapRow_pendencias_none_iff 0 [("Nome", CellValue.str "Ana")]).mpr (by decide)

theorem applyField_dias_nonneg {out : Cliente}
    (hout : ∀ n : Int, out.diasAtrasado = some n → 0 ≤ n) (k : FieldId) (v : CellValue) :
    ∀ n : Int, (applyField out k v).diasAtrasado = some n → 0 ≤ n := by
  intro n hn
  by_cases hk : k = FieldId.diasAtrasado
  · subst hk
    obtain ⟨m, hm, hm0⟩ := coerceDiasAtrasado_some_nonneg v
    have he : (applyField out FieldId.diasAtrasado v).diasAtrasado = coerceDiasAtrasado v := rfl
    rw [he, hm] at hn
    injection hn with h
    exact h ▸ hm0
  · rw [applyField_dias_of_ne hk] at hn
    exact hout n hn

theorem mapStep_dias_nonneg {acc : Cliente}
    (hacc : ∀ n : Int, acc.diasAtrasado = some n → 0 ≤ n) (kv : String × CellValue) :
    ∀ n : Int, (mapStep acc kv).diasAtrasado = some n → 0 ≤ n := by
  unfold mapStep
  cases mapHeaderToKey (normalizeHeader kv.1) with
  | none => exact hacc
  | some k => exact applyField_dias_nonneg hacc k kv.2

theorem foldl_mapStep_dias_nonneg (row : List (String × CellValue)) :
    ∀ acc : Cliente, (∀ n : Int, acc.diasAtrasado = some n → 0 ≤ n) →
      ∀ n : Int, (row.foldl mapStep acc).diasAtrasado = some n → 0 ≤ n := by
  induction row with
  | nil => exact fun _ h => h
  | cons kv rest ih =>
    intro acc hacc
    rw [List.foldl_cons]
    exact ih (mapStep acc kv) (mapStep_dias_nonneg hacc kv)

theorem applyFallback_dias_nonneg (now : Int) (out : Cliente)
    (hout : ∀ n : Int, out.diasAtrasado = some n → 0 ≤ n) :
    ∀ n : Int, (applyFallback now out).diasAtrasado = some n → 0 ≤ n := by
  intro n hn
  unfold applyFallback at hn
  cases hda : out.diasAtrasado with
  | none =>
    cases hdl : out.dataLimiteProtocolo with
    | none =>
      rw [hda, hdl] at hn
      rw [hda] at hn
      cases hn
    | some dt =>
      rw [hda, hdl] at hn
      have hn' : some (if Int.fdiv (now - dt.ms) 86400000 > 0
          then Int.fdiv (now - dt.ms) 86400000 else 0) = some n := hn
      injection hn' with h
      subst h
      by_cases hdiff : Int.fdiv (now - dt.ms) 86400000 > 0
      · rw [if_pos hdiff]
        exact le_of_lt hdiff
      · rw [if_neg hdiff]
  | some m =>
    cases hdl : out.dataLimiteProtocolo with
    | none =>
      rw [hda, hdl] at hn
      exact hout n hn
    | some dt =>
      rw [hda, hdl] at hn
      exact hout n hn

/-- C10: every mapped record's overdue-days field, whenever it holds a
number — whether coerced from the cell (all non-digits, including any minus
sign, are stripped before parsing) or computed by the clamped fallback — is
nonnegative. -/
theorem mapRow_diasAtrasado_nonneg (now : Int) (row : List (String × CellValue)) :
    ∀ n : Int, (mapRow now row).diasAtrasado = some n → 0 ≤ n := by
  unfold mapRow mapRowFields
  exact applyFallback_dias_nonneg now _
    (foldl_mapStep_dias_nonneg row _ (fun n h => Option.noConfusion h))

/-- C10 witness: an explicitly supplied overdue-days cell of "7" maps to the
nonnegative value 7. -/
theorem mapRow_diasAtrasado_nonneg_witness :
    (mapRow 0 [("Quantos dias esta atrasado", CellValue.str "7")]).diasAtrasado = some 7
    ∧ (0 : Int) ≤ 7 :=
  ⟨by decide,
   mapRow_diasAtrasado_nonneg 0 [("Quantos dias esta atrasado", CellValue.str "7")] 7
     (by decide)⟩

theorem if_pos_eq_max (d : Int) : (if d > 0 then d else 0) = max 0 d := by
  by_cases h : d > 0
  · rw [if_pos h, max_eq_right (le_of_lt h)]
  · rw [if_neg h, max_eq_left (by omega)]

/-- C8: after all columns of a row are processed, (i) an explicitly supplied
overdue-days value is never overwritten by the fallback; (ii) when
overdue-days is still null/absent and a protocol-deadline date is present,
the mapper assigns `max(0, floor((now - deadline) / 1 day))`; and (iii) for
a record whose protocol deadline is exactly 10 days before `now` and whose
overdue-days is absent, the computed value is 10. -/
theorem mapRow_overdue_fallback (now : Int) (row : List (String × CellValue)) :
    (∀ n : Int, (mapRowFields row).diasAtrasado = some n →
      (mapRow now row).diasAtrasado = some n)
    ∧ (∀ dt : JSDate, (mapRowFields row).diasAtrasado = none →
        (mapRowFields row).dataLimiteProtocolo = some dt →
        (mapRow now row).diasAtrasado =
          some (max 0 (Int.fdiv (now - dt.ms) 86400000)))
    ∧ ((mapRowFields row).diasAtrasado = none →
        (mapRowFields row).dataLimiteProtocolo = some ⟨now - 10 * 86400000⟩ →
        (mapRow now row).diasAtrasado = some 10) := by
  have hA : ∀ n : Int, (mapRowFields row).diasAtrasado = some n →
      (mapRow now row).diasAtrasado = some n := by
    intro n hn
    unfold mapRow applyFallback
    cases hdl : (mapRowFields row).dataLimiteProtocolo with
    | none =>
      rw [hn]
      exact hn
    | some dt =>
      rw [hn]
      exact hn
  have hB : ∀ dt : JSDate, (mapRowFields row).diasAtrasado = none →
      (mapRowFields row).dataLimiteProtocolo = some dt →
      (mapRow now row).diasAtrasado =
        some (max 0 (Int.fdiv (now - dt.ms) 86400000)) := by
    intro dt hd hp
    unfold mapRow applyFallback
    rw [hd, hp]
    show some (if Int.fdiv (now - dt.ms) 86400000 > 0
        then Int.fdiv (now - dt.ms) 86400000 else 0) = _
    rw [if_pos_eq_max]
  refine ⟨hA, hB, ?_⟩
  intro hd hp
  have h10 := hB ⟨now - 10 * 86400000⟩ hd hp
  rw [h10, show ((⟨now - 10 * 86400000⟩ : JSDate).ms) = now - 10 * 86400000 from rfl,
    show now - (now - 10 * 86400000) = 10 * 86400000 from by ring]
  decide

/-- C8 witness: a row with only a protocol-deadline column dated exactly 10
days before `now` maps to a record with computed overdue-days 10. -/
theorem mapRow_overdue_fallback_witness :
    (mapRow 1700000000000
      [("Data limite para protocolo",
        CellValue.date ⟨1700000000000 - 10 * 86400000⟩)]).diasAtrasado = some 10 :=
  (mapRow_overdue_fallback 1700000000000
    [("Data limite para protocolo",
      CellValue.date ⟨1700000000000 - 10 * 86400000⟩)]).2.2 (by decide) (by decide)

/-! ## Header-resolution lemmas -/

theorem find?_append_first {α : Type} {p : α → Bool} {l₁ : List α} (l₂ : List α)
    {x : α} (h1 : ∀ y ∈ l₁, p y = false) (hx : p x = true) :
    (l₁ ++ x :: l₂).find? p = some x := by
  induction l₁ with
  | nil => exact List.find?_cons_of_pos _ hx
  | cons a t ih =>
    rw [List.cons_append,
      List.find?_cons_of_neg _ (by simp [h1 a (List.mem_cons_self a t)]),
      ih (fun y hy => h1 y (List.mem_cons_of_mem a hy))]

/-- C4: header resolution is a deterministic function (`mapHeaderToKey` is a
pure function of the input string and the fixed, insertion-ordered table):
(i) an exact key match is returned first; (ii) failing that, the field of the
first table key — in table order — that is a substring of the normalized
header is returned; (iii) when no key matches either way the result is
absent, and no error is raised. -/
theorem mapHeaderToKey_resolution (h : String) :
    (∀ kv ∈ headerMap, kv.1 = h → mapHeaderToKey h = some kv.2)
    ∧ (∀ (l₁ l₂ : List (String × FieldId)) (kv : String × FieldId),
        headerMap = l₁ ++ kv :: l₂ →
        (∀ kv' ∈ headerMap, kv'.1 ≠ h) →
        (∀ kv' ∈ l₁, jsIncludes h kv'.1 = false) →
        jsIncludes h kv.1 = true →
        mapHeaderToKey h = some kv.2)
    ∧ ((∀ kv ∈ headerMap, kv.1 ≠ h ∧ jsIncludes h kv.1 = false) →
        mapHeaderToKey h = none) := by
  have hnodup : (headerMap.map Prod.fst).Nodup := by decide
  refine ⟨?_, ?_, ?_⟩
  · intro kv hkv hkey
    have hsome : ∃ kv'', headerMap.find? (fun e => e.1 == h) = some kv'' := by
      cases hf : headerMap.find? (fun e => e.1 == h) with
      | some kv'' => exact ⟨kv'', rfl⟩
      | none =>
        exfalso
        have := List.find?_eq_none.mp hf kv hkv
        simp [hkey] at this
    obtain ⟨kv'', hf⟩ := hsome
    have hmem'' := List.mem_of_find?_eq_some hf
    have hkey'' : kv''.1 = h := by simpa using List.find?_some hf
    have heq : kv'' = kv :=
      List.inj_on_of_nodup_map hnodup hmem'' hkv (by rw [hkey'', hkey])
    unfold mapHeaderToKey
    rw [hf, heq]
  · intro l₁ l₂ kv hdec hnoexact hl₁ hkv
    unfold mapHeaderToKey
    rw [List.find?_eq_none.mpr (fun x hx => by simp [hnoexact x hx])]
    show (headerMap.find? (fun e => jsIncludes h e.1)).map (fun kv => kv.2) = some kv.2
    rw [hdec, find?_append_first l₂ (fun y hy => hl₁ y hy) hkv]
    rfl
  · intro hall
    unfold mapHeaderToKey
    rw [List.find?_eq_none.mpr (fun x hx => by simp [(hall x hx).1])]
    show (headerMap.find? (fun e => jsIncludes h e.1)).map (fun kv => kv.2) = none
    rw [List.find?_eq_none.mpr (fun x hx => by simp [(hall x hx).2])]
    rfl

/-- C4 witness: the header "data limite para protocolo extra" has no exact
key, and the first (and only) substring-matching key in table order is
"data limite para protocolo", so it resolves to the protocol-deadline
field. -/
theorem mapHeaderToKey_resolution_witness :
    mapHeaderToKey "data limite para protocolo extra" = some FieldId.dataLimiteProtocolo :=
  (mapHeaderToKey_resolution "data limite para protocolo extra").2.1
    (headerMap.take 16) (headerMap.drop 17)
    ("data limite para protocolo", FieldId.dataLimiteProtocolo)
    (by decide) (by decide) (by decide) (by decide)

/-! ## `parseDate` reduction lemmas -/

theorem jsNumber_of_digits_ne {l : List Char} (hne : l ≠ [])
    (hd : ∀ d ∈ l, d.isDigit = true) : jsNumber ⟨l⟩ = some (digitsVal l) := by
  rcases jsNumber_of_digits hd with h | ⟨hnil, _⟩
  · exact h
  · exact absurd hnil hne

theorem parseDate_str_eq {s : String} (hne : s ≠ "") :
    parseDate (CellValue.str s) = parseDateStr (jsTrim s) := by
  show (if s = "" then none else parseDateStr (jsTrim s)) = parseDateStr (jsTrim s)
  rw [if_neg hne]

theorem parseDateStr_split3 {s : String} (hne : s ≠ "") {p0 p1 p2 : List Char}
    (hsplit : splitChar '/' s.data = [p0, p1, p2]) :
    parseDateStr s =
      match jsNumber ⟨p0⟩, jsNumber ⟨p1⟩, jsNumber ⟨p2⟩ with
      | some d, some m, some y =>
        if y > 1900 then some (jsNewDate y (m - 1) d) else none
      | _, _, _ => none := by
  unfold parseDateStr
  rw [if_neg hne, hsplit]

/-- C5: for a string of the form `DD/MM/YYYY` (three slash-separated parts,
no whitespace), (i) when all parts are numeric digit strings and YYYY > 1900,
`parseDate` returns `new Date(YYYY, MM-1, DD)`; when YYYY ≤ 1900 the input is
rejected; and (ii) when any part is non-numeric (JS `NaN`), the input is
rejected. -/
theorem parseDate_ddmmyyyy (dd mm yy : List Char)
    (hnw : ∀ c ∈ dd ++ '/' :: (mm ++ '/' :: yy), isWSChar c = false)
    (hns : '/' ∉ dd ∧ '/' ∉ mm ∧ '/' ∉ yy) :
    ((∀ c ∈ dd, c.isDigit = true) → (∀ c ∈ mm, c.isDigit = true) →
      (∀ c ∈ yy, c.isDigit = true) → dd ≠ [] → mm ≠ [] → yy ≠ [] →
      ((digitsVal yy > 1900 →
          parseDate (CellValue.str ⟨dd ++ '/' :: (mm ++ '/' :: yy)⟩) =
            some (jsNewDate (digitsVal yy) (digitsVal mm - 1) (digitsVal dd)))
        ∧ (digitsVal yy ≤ 1900 →
          parseDate (CellValue.str ⟨dd ++ '/' :: (mm ++ '/' :: yy)⟩) = none)))
    ∧ ((jsNumber ⟨dd⟩ = none ∨ jsNumber ⟨mm⟩ = none ∨ jsNumber ⟨yy⟩ = none) →
        parseDate (CellValue.str ⟨dd ++ '/' :: (mm ++ '/' :: yy)⟩) = none) := by
  have hLne : dd ++ '/' :: (mm ++ '/' :: yy) ≠ [] := by simp
  have hsne : (⟨dd ++ '/' :: (mm ++ '/' :: yy)⟩ : String) ≠ "" := by
    intro he
    exact hLne (by simpa using congrArg String.data he)
  have htrim : jsTrim ⟨dd ++ '/' :: (mm ++ '/' :: yy)⟩ =
      ⟨dd ++ '/' :: (mm ++ '/' :: yy)⟩ :=
    congrArg String.mk (trimWS_eq_self hnw)
  have hsplit : splitChar '/' (dd ++ '/' :: (mm ++ '/' :: yy)) = [dd, mm, yy] := by
    rw [splitChar_append _ hns.1, splitChar_append _ hns.2.1,
      splitChar_of_not_mem hns.2.2]
  have hps : parseDate (CellValue.str ⟨dd ++ '/' :: (mm ++ '/' :: yy)⟩) =
      match jsNumber ⟨dd⟩, jsNumber ⟨mm⟩, jsNumber ⟨yy⟩ with
      | some d, some m, some y =>
        if y > 1900 then some (jsNewDate y (m - 1) d) else none
      | _, _, _ => none := by
    rw [parseDate_str_eq hsne, htrim, parseDateStr_split3 hsne hsplit]
  constructor
  · intro hd hm hy hdne hmne hyne
    have h1 : jsNumber ⟨dd⟩ = some (digitsVal dd) := jsNumber_of_digits_ne hdne hd
    have h2 : jsNumber ⟨mm⟩ = some (digitsVal mm) := jsNumber_of_digits_ne hmne hm
    have h3 : jsNumber ⟨yy⟩ = some (digitsVal yy) := jsNumber_of_digits_ne hyne hy
    constructor
    · intro hgt
      rw [hps, h1, h2, h3]
      exact if_pos hgt
    · intro hle
      rw [hps, h1, h2, h3]
      exact if_neg (not_lt.mpr hle)
  · intro hnone
    rw [hps]
    rcases hnone with h | h | h
    · rw [h]
    · cases hdd : jsNumber ⟨dd⟩ <;> rw [h]
    · cases hdd : jsNumber ⟨dd⟩ <;> cases hmm : jsNumber ⟨mm⟩ <;> rw [h]

/-- C5 witness: `"05/03/2022"` parses to `new Date(2022, 2, 5)`, whose
calendar fields are year 2022, month 2 (0-based March) and day 5. -/
theorem parseDate_ddmmyyyy_witness :
    parseDate (CellValue.str "05/03/2022") = some (jsNewDate 2022 2 5)
    ∧ getFullYear (jsNewDate 2022 2 5) = 2022
    ∧ getMonth (jsNewDate 2022 2 5) = 2
    ∧ getDate (jsNewDate 2022 2 5) = 5 := by
  refine ⟨?_, by decide, by decide, by decide⟩
  have h := ((parseDate_ddmmyyyy ['0', '5'] ['0', '3'] ['2', '0', '2', '2']
      (by decide) (by decide)).1
    (by decide) (by decide) (by decide) (by decide) (by decide) (by decide)).1 (by decide)
  exact h.trans (by decide)

/-- C6: for every numeric (and positive) string that reaches the
spreadsheet-serial attempt of `parseDate` — it survives the falsiness check,
does not split into three slash-parts, and the generic `Date.parse` attempt
has failed to produce an accepted date — the result is the timestamp
`(serial - 25569) * 86400 * 1000` milliseconds, accepted exactly when the
resulting year exceeds 1900. -/
theorem parseDate_serial_spec (s : List Char) (n : Int)
    (hws : ∀ c ∈ s, isWSChar c = false)
    (hne : s ≠ [])
    (hsplit : (splitChar '/' s).length ≠ 3)
    (hiso : isoAttempt ⟨s⟩ = none)
    (hn : jsNumber ⟨s⟩ = some n) (hpos : n > 0) :
    parseDate (CellValue.str ⟨s⟩) =
      (if msYear ((n - 25569) * 86400000) > 1900
       then some ⟨(n - 25569) * 86400000⟩ else none) := by
  have hsne : (⟨s⟩ : String) ≠ "" := by
    intro he
    exact hne (by simpa using congrArg String.data he)
  have htrim : jsTrim ⟨s⟩ = ⟨s⟩ := congrArg String.mk (trimWS_eq_self hws)
  have hred : parseDateStr ⟨s⟩ =
      (match isoAttempt ⟨s⟩ with
       | some ms => some ⟨ms⟩
       | none =>
         match jsNumber ⟨s⟩ with
         | some n =>
           if n > 0 then
             if msYear ((n - 25569) * 86400000) > 1900 then
               some ⟨(n - 25569) * 86400000⟩
             else none
           else none
         | none => none) := by
    unfold parseDateStr
    rw [if_neg hsne]
    rcases h3 : splitChar '/' s with _ | ⟨a, _ | ⟨b, _ | ⟨c, _ | ⟨d, rest⟩⟩⟩⟩
    · rfl
    · rfl
    · rfl
    · rw [h3] at hsplit
      simp at hsplit
    · rfl
  rw [parseDate_str_eq hsne, htrim, hred, hiso, hn]
  show (if n > 0 then
      if msYear ((n - 25569) * 86400000) > 1900 then
        some (JSDate.mk ((n - 25569) * 86400000))
      else none
    else none) =
    (if msYear ((n - 25569) * 86400000) > 1900 then
      some (JSDate.mk ((n - 25569) * 86400000))
    else none)
  rw [if_pos hpos]

/-- C6 witness: `"44000"` is not an ISO date and `Date.parse` rejects it, so
the serial branch produces `(44000 - 25569) * 86400000 = 1592438400000` ms,
a timestamp in the year 2020 (2020-06-18). -/
theorem parseDate_serial_witness :
    parseDate (CellValue.str "44000") = some ⟨1592438400000⟩
    ∧ getFullYear ⟨1592438400000⟩ = 2020 := by
  refine ⟨?_, by decide⟩
  have h := parseDate_serial_spec ['4', '4', '0', '0', '0'] 44000 (by decide) (by decide)
    (by decide) (by decide) (by decide) (by decide)
  exact h.trans (by decide)
